import Mathlib

/-
Verification development for the google-fonts-plugin repository.

The JavaScript source (src/index.js) is embedded shallowly:
  - JS strings are Lean String (a structure over List Char); the scanning and
    replacement primitives of the code are modelled character by character.
  - The file system cache, the HTTP client (axios), the sha1 digest (crypto)
    and the base64 encoder (Buffer) are external collaborators; their calls
    are modelled by an explicit World state (cache store, disk-read counter,
    HTTP GET log) and by abstract function parameters (hash, net, b64).
  - async/await code is sequentialized.  In the source every cache read is
    synchronous (fs.readFileSync) and happens before the first await of the
    promise batch, and every cache write stores exactly the value the network
    returned for that key, so the sequential threading used here produces the
    same result values and the same final store as the concurrent original.
  - Fallible operations (JSON.parse, fs.readFileSync, throwing TypeErrors)
    are modelled with Option / Except.
-/

set_option linter.unusedVariables false
set_option maxRecDepth 8192

namespace GFP

/- ------------------------------------------------------------------ -/
/- Generic association-list lookup: models JS object property access
   (first binding wins) and the on-disk cache keyed by file name.      -/

def assocGet {α : Type} : List (String × α) → String → Option α
  | [], _ => none
  | kv :: rest, k => if kv.1 = k then some kv.2 else assocGet rest k

abbrev Store := List (String × String)

def storeGet (st : Store) (k : String) : Option String := assocGet st k

/- ------------------------------------------------------------------ -/
/- JSON-like values, for the configuration-merging part of the code.   -/

inductive JVal where
  | str (s : String)
  | num (n : Int)
  | boolean (b : Bool)
  | null
  | arr (elems : List JVal)
  | obj (fields : List (String × JVal))

def jget : JVal → String → Option JVal
  | JVal.obj fields, k => assocGet fields k
  | _, _ => none

/- GoogleFontsWebpackPlugin.defaultOptions from src/index.js, as the raw
   object value the constructor merges under the user configuration.    -/
def defaultOptionsJ : List (String × JVal) :=
  [ ("fonts", JVal.arr
      [ JVal.obj
          [ ("family", JVal.str "Roboto")
          , ("variants", JVal.arr [JVal.str "400", JVal.str "400i", JVal.str "700", JVal.str "700i"])
          , ("subsets", JVal.arr [JVal.str "latin", JVal.str "latin-ext"]) ] ])
  , ("formats", JVal.arr [JVal.str "eot", JVal.str "ttf", JVal.str "woff", JVal.str "woff2"])
  , ("formatAgents", JVal.obj
      [ ("eot", JVal.str "Mozilla/4.0 (compatible; MSIE 8.0; Windows NT 6.1; WOW64; Trident/4.0; SLCC2; .NET CLR 2.0.50727; .NET CLR 3.5.30729; .NET CLR 3.0.30729; .NET4.0C; .NET4.0E)")
      , ("ttf", JVal.str "Mozilla/5.0 (Macintosh; Intel Mac OS X 10_6_8) AppleWebKit/534.59.8 (KHTML, like Gecko) Version/5.1.9 Safari/534.59.8")
      , ("woff", JVal.str "Mozilla/5.0 (Windows NT 10.0; WOW64; Trident/7.0; .NET4.0C; .NET4.0E; .NET CLR 2.0.50727; .NET CLR 3.0.30729; .NET CLR 3.5.30729; rv:11.0) like Gecko")
      , ("woff2", JVal.str "Mozilla/5.0 (Windows NT 10.0; Win64; x64; ServiceUI 8) AppleWebKit/537.36 (KHTML, like Gecko) Chrome/51.0.2704.79 Safari/537.36 Edge/14.14393") ])
  , ("chunkName", JVal.str "google-fonts")
  , ("encode", JVal.boolean true)
  , ("cache", JVal.boolean true) ]

/- Object.assign(target, a, b): a SHALLOW merge.  The result has the keys of
   a (in order, values overridden by b where b also has the key) followed by
   the keys of b that a lacks.  Nested objects are replaced wholesale.      -/
def objAssign (a b : List (String × JVal)) : List (String × JVal) :=
  a.map (fun kv => (kv.1, (assocGet b kv.1).getD kv.2))
    ++ b.filter (fun kv => (assocGet a kv.1).isNone)

/- constructor branch for `typeof options === 'object'` in src/index.js:
   Object.assign(this.options, GoogleFontsWebpackPlugin.defaultOptions, options) -/
def pluginConstructorFromObject (options : List (String × JVal)) : List (String × JVal) :=
  objAssign defaultOptionsJ options

def pluginName : String := "google-fonts-plugin"

/- options[key] instanceof Object && Object.keys(options[key]).length !== 0:
   only objects and arrays are instanceof Object, and the check demands at
   least one own key (array index).                                          -/
def nonEmptyObjectLike : JVal → Bool
  | JVal.obj fields => !fields.isEmpty
  | JVal.arr elems => !elems.isEmpty
  | _ => false

/- Object.keys traversal order of a value: object fields keep their keys,
   array elements have numeric index keys, which never equal the plugin name
   (modelled here by the empty key).                                         -/
def childrenOf : JVal → List (String × JVal)
  | JVal.obj fields => fields
  | JVal.arr elems => elems.map (fun x => ("", x))
  | _ => []

/- Node-count measure of a value, used only to fuel the configuration walk. -/
mutual
def jsize : JVal → Nat
  | JVal.str _ => 1
  | JVal.num _ => 1
  | JVal.boolean _ => 1
  | JVal.null => 1
  | JVal.arr elems => 1 + jsizeL elems
  | JVal.obj fields => 1 + jsizeF fields
def jsizeL : List JVal → Nat
  | [] => 0
  | v :: rest => 1 + jsize v + jsizeL rest
def jsizeF : List (String × JVal) → Nat
  | [] => 0
  | kv :: rest => 1 + jsize kv.2 + jsizeF rest
end

/- getConfig from src/index.js: depth-first search, in key order, for a value
   bound to the plugin name; the recursion is rendered as a fuelled worklist
   walk (children before the remaining siblings).  Each step consumes one
   node and pushes strictly fewer weight than it consumed, so the node count
   of the root bounds the number of steps and the fuel never runs out.       -/
def getConfigGo : Nat → List (String × JVal) → Option JVal
  | 0, _ => none
  | _, [] => none
  | Nat.succ fuel, (k, v) :: rest =>
    if k = pluginName then some v
    else if nonEmptyObjectLike v then getConfigGo fuel (childrenOf v ++ rest)
    else getConfigGo fuel rest

def getConfig (options : JVal) : Option JVal :=
  getConfigGo (jsizeF (childrenOf options)) (childrenOf options)

inductive CfgErr where
  | configRead
  | configParse

/- /\.neon$/.test(options) -/
def endsWithNeon (path : String) : Bool := ".neon".data.isSuffixOf path.data

/- file.replace(/\r\n/g, '\n'): global, left-to-right, non-overlapping. -/
def stripCRLF : List Char → List Char
  | '\r' :: '\n' :: rest => '\n' :: stripCRLF rest
  | c :: rest => c :: stripCRLF rest
  | [] => []

/- constructor branch for `typeof options === 'string'` in src/index.js.
   fs.readFileSync and the two parsers are external collaborators, passed in
   as abstract functions; fs.readFileSync throwing ENOENT on a missing path
   is the ConfigReadError of the specification, JSON.parse / neon.decode
   throwing on invalid content is its ConfigParseError.  Object.assign with
   an undefined or primitive third argument contributes no keys, so those
   getConfig outcomes resolve to the defaults alone.                        -/
def pluginConstructorFromPath
    (fsys : String → Option String)
    (parseJson : String → Option JVal)
    (parseNeon : String → Option JVal)
    (path : String) : Except CfgErr (List (String × JVal)) :=
  match fsys path with
  | none => Except.error CfgErr.configRead
  | some file =>
    let parsed :=
      if endsWithNeon path then parseNeon (String.mk (stripCRLF file.data))
      else parseJson file
    match parsed with
    | none => Except.error CfgErr.configParse
    | some fileOptions =>
      match getConfig fileOptions with
      | some (JVal.obj fields) => Except.ok (objAssign defaultOptionsJ fields)
      | some _ => Except.ok defaultOptionsJ
      | none => Except.ok defaultOptionsJ

/- ------------------------------------------------------------------ -/
/- The typed view of the resolved settings, used by the font service.  -/

structure FontDescriptor where
  family : String
  variants : Option (List String)
  subsets : Option (List String)

structure Opts where
  fonts : List FontDescriptor
  formats : List String
  formatAgents : List (String × String)
  chunkName : String
  encode : Bool
  cache : Bool

def defaultOpts : Opts :=
  { fonts :=
      [ { family := "Roboto"
        , variants := some ["400", "400i", "700", "700i"]
        , subsets := some ["latin", "latin-ext"] } ]
  , formats := ["eot", "ttf", "woff", "woff2"]
  , formatAgents :=
      [ ("eot", "Mozilla/4.0 (compatible; MSIE 8.0; Windows NT 6.1; WOW64; Trident/4.0; SLCC2; .NET CLR 2.0.50727; .NET CLR 3.5.30729; .NET CLR 3.0.30729; .NET4.0C; .NET4.0E)")
      , ("ttf", "Mozilla/5.0 (Macintosh; Intel Mac OS X 10_6_8) AppleWebKit/534.59.8 (KHTML, like Gecko) Version/5.1.9 Safari/534.59.8")
      , ("woff", "Mozilla/5.0 (Windows NT 10.0; WOW64; Trident/7.0; .NET4.0C; .NET4.0E; .NET CLR 2.0.50727; .NET CLR 3.0.30729; .NET CLR 3.5.30729; rv:11.0) like Gecko")
      , ("woff2", "Mozilla/5.0 (Windows NT 10.0; Win64; x64; ServiceUI 8) AppleWebKit/537.36 (KHTML, like Gecko) Chrome/51.0.2704.79 Safari/537.36 Edge/14.14393") ]
  , chunkName := "google-fonts"
  , encode := true
  , cache := true }

/- The external collaborators of the font service: crypto sha1 hex digest,
   axios GET body by URL, Buffer base64 encoding.                           -/
structure Ext where
  hash : String → String
  net : String → String
  b64 : String → String

/- Observable effect state: the disk cache contents (newest binding first),
   the number of disk reads performed, and the log of HTTP GETs issued,
   each with the User-Agent header value sent.                              -/
structure World where
  store : Store
  reads : Nat
  gets : List (String × Option String)

/- getCacheKey from src/index.js: format + '-' + sha1hex(requestUrl).        -/
def getCacheKey (hash : String → String) (requestUrl format : String) : String :=
  format ++ "-" ++ hash requestUrl

/- getFromCache: fs.existsSync + fs.readFileSync — one disk read.            -/
def getFromCache (w : World) (key encoding : String) : Option String × World :=
  (storeGet w.store key, { w with reads := w.reads + 1 })

/- saveToCache: fs.writeFileSync — a new binding shadowing any older one.    -/
def saveToCache (w : World) (key contents encoding : String) : World :=
  { w with store := (key, contents) :: w.store }

/- The network branch of requestFont: the axios GET (with the format agent
   as User-Agent header), followed by the unconditional saveToCache call.    -/
def fetchAndStore (opts : Opts) (ext : Ext) (requestString format encoding : String)
    (w : World) : String × World :=
  let body := ext.net requestString
  let w1 := { w with gets := w.gets ++ [(requestString, assocGet opts.formatAgents format)] }
  (body, saveToCache w1 (getCacheKey ext.hash requestString format) body encoding)

/- requestFont from src/index.js.  Note the two JS truthiness facts embedded
   here: the cache is consulted only when options.cache is truthy, and a
   cached empty string is falsy, so it is refetched like a miss; and the
   saveToCache call sits inside the miss branch but OUTSIDE any cache guard,
   so every network fetch writes to the disk cache.                          -/
def requestFont (opts : Opts) (ext : Ext) (requestString format encoding : String)
    (w : World) : String × World :=
  let cacheKey := getCacheKey ext.hash requestString format
  let p := if opts.cache then getFromCache w cacheKey encoding else (none, w)
  match p.1 with
  | some v =>
    if v = "" then fetchAndStore opts ext requestString format encoding p.2
    else (v, p.2)
  | none => fetchAndStore opts ext requestString format encoding p.2

/- ------------------------------------------------------------------ -/
/- createRequestStrings.                                               -/

/- family.replace(/\s/gi, '+'): every JS whitespace character becomes '+'
   (the ASCII whitespace class; the unicode spaces JS also accepts do not
   occur in font family names).                                           -/
def jsWhitespace (c : Char) : Bool :=
  c = ' ' || c = '\t' || c = '\n' || c = '\r' || c = '\x0b' || c = '\x0c'

def plusify (s : String) : String :=
  String.mk (s.data.map (fun c => if jsWhitespace c then '+' else c))

/- The URL built for one descriptor with a truthy family; an absent variants
   or subsets field is JS-falsy and skips its clause, while a PRESENT empty
   array is truthy (Option some []) and still appends the separator.         -/
def requestStringFor (item : FontDescriptor) : String :=
  let s1 := "https://fonts.googleapis.com/css?family=" ++ plusify item.family
  let s2 :=
    match item.variants with
    | some vs => s1 ++ ":" ++ String.intercalate "," vs
    | none => s1
  match item.subsets with
  | some ss => s2 ++ "&subset=" ++ String.intercalate "," ss
  | none => s2

/- createRequestStrings from src/index.js: a map over the descriptors whose
   callback returns null (here: none) when item.family is falsy — the null
   stays in the returned array as a placeholder.                             -/
def createRequestStrings (opts : Opts) : List (Option String) :=
  opts.fonts.map (fun item =>
    if item.family = "" then none else some (requestStringFor item))

/- ------------------------------------------------------------------ -/
/- requestFontsCSS.                                                    -/

/- The map-then-await-in-order loop, sequentialized (see header note). -/
def requestFontsLoop (opts : Opts) (ext : Ext) (format : String) :
    List String → World → List String × World
  | [], w => ([], w)
  | u :: rest, w =>
    let p := requestFont opts ext u format "utf8" w
    let q := requestFontsLoop opts ext format rest p.2
    (p.1 :: q.1, q.2)

/- requestFontsCSS from src/index.js: results.join('').  A null request
   string (family-less descriptor) reaches getCacheKey, where
   crypto.update(null) throws a TypeError; that crash is the none branch.  -/
def requestFontsCSS (opts : Opts) (ext : Ext) (format : String) (w : World) :
    Option (String × World) :=
  if (createRequestStrings opts).all Option.isSome then
    let p := requestFontsLoop opts ext format ((createRequestStrings opts).reduceOption) w
    some (String.join p.1, p.2)
  else none

/- ------------------------------------------------------------------ -/
/- The url(...) extraction regex:  /url\((.+?)\)/gi                    -/

/- Case-insensitive test for the literal "url(" at the head.           -/
def isUrlOpen : List Char → Bool
  | a :: b :: c :: d :: _ =>
    (a = 'u' || a = 'U') && (b = 'r' || b = 'R') && (c = 'l' || c = 'L') && (d = '(')
  | _ => false

/- (.+?)\) after the open paren: the first character is always consumed
   (+ needs at least one), then the non-greedy body stops at the first ')';
   '.' does not match a newline, which aborts the attempt.               -/
def scanInner (acc : List Char) : List Char → Option (List Char × List Char)
  | [] => none
  | c :: rest =>
    if c = ')' then some (acc.reverse, rest)
    else if c = '\n' then none
    else scanInner (c :: acc) rest

def takeInner : List Char → Option (List Char × List Char)
  | [] => none
  | c :: rest => if c = '\n' then none else scanInner [c] rest

/- Global matching: on success continue after the match, on failure advance
   one character.  Fuelled by the input length (each step strictly shortens
   the text, so the fuel never runs out at or above the length).           -/
def matchUrlsGo : Nat → List Char → List (List Char)
  | 0, _ => []
  | _, [] => []
  | Nat.succ fuel, c :: rest =>
    if isUrlOpen (c :: rest) then
      match takeInner (rest.drop 3) with
      | some ia => ia.1 :: matchUrlsGo fuel ia.2
      | none => matchUrlsGo fuel rest
    else matchUrlsGo fuel rest

def matchUrls (l : List Char) : List (List Char) := matchUrlsGo l.length l

/- css.match(regex) lists the full matches "url(inner)"; the subsequent
   .map(m => m.replace(regex, '$1')) reduces each to its inner group, so the
   model extracts the inner texts directly.                                -/
def strMatchUrls (css : String) : List String :=
  (matchUrls css.data).map (fun l => String.mk l)

/- ------------------------------------------------------------------ -/
/- String.prototype.replace with a string pattern: first occurrence only. -/

def firstSplit (pat : List Char) : List Char → Option (List Char × List Char)
  | [] => if pat.isEmpty then some ([], []) else none
  | c :: rest =>
    if pat.isPrefixOf (c :: rest) then some ([], (c :: rest).drop pat.length)
    else
      match firstSplit pat rest with
      | some pq => some (c :: pq.1, pq.2)
      | none => none

/- The backquote and apostrophe characters of the JS substitution patterns,
   written by code point.                                                  -/
def bqChar : Char := Char.ofNat 96
def sqChar : Char := Char.ofNat 39

/- GetSubstitution for a string pattern: String.prototype.replace applies it
   to the replacement text even when the pattern is a plain string.  In the
   replacement, dollar-dollar yields one dollar, dollar-ampersand the matched
   substring, dollar-backquote the text preceding the match and
   dollar-apostrophe the text following it; a string pattern has no capture
   groups, so every other dollar sequence (dollar-digit included) is literal,
   and a dollar followed by a non-dollar literal character cannot start a new
   pattern at that character, so the scan continues after it.              -/
def jsSubstituteGo (matched pre post : List Char) : Nat → List Char → List Char
  | 0, l => l
  | _, [] => []
  | Nat.succ fuel, c :: rest =>
    if c = '$' then
      match rest with
      | [] => ['$']
      | d :: rest2 =>
        if d = '$' then '$' :: jsSubstituteGo matched pre post fuel rest2
        else if d = '&' then matched ++ jsSubstituteGo matched pre post fuel rest2
        else if d = bqChar then pre ++ jsSubstituteGo matched pre post fuel rest2
        else if d = sqChar then post ++ jsSubstituteGo matched pre post fuel rest2
        else '$' :: d :: jsSubstituteGo matched pre post fuel rest2
    else c :: jsSubstituteGo matched pre post fuel rest

/- The scan is fuelled by the input length; every step consumes at least one
   character, so the fuel never runs out on the initial call.              -/
def jsSubstitute (matched pre post l : List Char) : List Char :=
  jsSubstituteGo matched pre post l.length l

/- Specification-side test: does a text contain an ACTIVE substitution
   pattern, i.e. one GetSubstitution would expand?  (Mirrors the scan of
   jsSubstitute; a dollar before a non-special character is inert.)        -/
def hasSubstPattern : List Char → Bool
  | [] => false
  | c :: rest =>
    if c = '$' then
      match rest with
      | [] => false
      | d :: rest2 =>
        if d = '$' then true
        else if d = '&' then true
        else if d = bqChar then true
        else if d = sqChar then true
        else hasSubstPattern rest2
    else hasSubstPattern rest

/- css.replace(pat, repl) for a string pat: replaces the leftmost occurrence,
   passing the replacement through GetSubstitution with the matched substring
   (which equals pat) and the text around the match.                       -/
def jsReplaceFirst (s pat repl : String) : String :=
  match firstSplit pat.data s.data with
  | none => s
  | some pq => String.mk (pq.1 ++ jsSubstitute pat.data pq.1 pq.2 repl.data ++ pq.2)

/- fontsEncoded.forEach((font, index) => css = css.replace(fontUrls[index], font)) -/
def replaceLoop (css : String) : List String → List String → String
  | u :: us, d :: ds => replaceLoop (jsReplaceFirst css u d) us ds
  | _, _ => css

/- ------------------------------------------------------------------ -/
/- requestFontFile / encodeFonts.                                      -/

/- fontUrl.startsWith('"data:application/') — note the leading quote.   -/
def isDataAppUri (fontUrl : String) : Bool :=
  "\"data:application/".data.isPrefixOf fontUrl.data

/- fontUrl.match(new RegExp('(' + formats.join('|') + ')$'))[1]: the regex
   engine returns the leftmost-starting suffix match, i.e. the longest
   configured format that is a suffix, ties broken by list order.          -/
def inferFormat (formats : List String) (fontUrl : String) : Option String :=
  (formats.filter (fun f => f.data.isSuffixOf fontUrl.data)).foldl
    (fun best f =>
      match best with
      | none => some f
      | some b => if b.length < f.length then some f else best) none

def mkDataUri (format data : String) : String :=
  "\"data:application/x-font-" ++ format ++ ";base64," ++ data ++ "\""

/- The errors an encodeFonts run can surface: css.match(regex) being null
   makes the .map call throw a TypeError, and a URL matching no configured
   format makes the [1] access on a null match result throw a TypeError —
   the format-inference failure of the specification.                      -/
inductive Err where
  | matchNull
  | formatInference (fontUrl : String)

def requestFontFile (opts : Opts) (ext : Ext) (fontUrl : String) (w : World) :
    Except Err (String × World) :=
  if isDataAppUri fontUrl then Except.ok (fontUrl, w)
  else
    match inferFormat opts.formats fontUrl with
    | none => Except.error (Err.formatInference fontUrl)
    | some format =>
      let p := requestFont opts ext fontUrl format "binary" w
      Except.ok (mkDataUri format (ext.b64 p.1), p.2)

def requestFontFiles (opts : Opts) (ext : Ext) :
    List String → World → Except Err (List String × World)
  | [], w => Except.ok ([], w)
  | u :: rest, w =>
    match requestFontFile opts ext u w with
    | Except.error e => Except.error e
    | Except.ok p =>
      match requestFontFiles opts ext rest p.2 with
      | Except.error e => Except.error e
      | Except.ok q => Except.ok (p.1 :: q.1, q.2)

def encodeFonts (opts : Opts) (ext : Ext) (css : String) (w : World) :
    Except Err (String × World) :=
  if opts.encode then
    match strMatchUrls css with
    | [] => Except.error Err.matchNull
    | u :: us =>
      match requestFontFiles opts ext (u :: us) w with
      | Except.error e => Except.error e
      | Except.ok p => Except.ok (replaceLoop css (u :: us) p.1, p.2)
  else Except.ok (css, w)

/- ------------------------------------------------------------------ -/
/- Specification-side helpers used to state the theorems.              -/

/- The text one fetch of a URL yields, as a function of the initial cache
   state: the cached value when caching is on and a non-empty entry exists,
   the network body otherwise.                                             -/
def canonText (opts : Opts) (ext : Ext) (format : String) (st0 : Store) (u : String) : String :=
  if opts.cache then
    match storeGet st0 (getCacheKey ext.hash u format) with
    | some v => if v = "" then ext.net u else v
    | none => ext.net u
  else ext.net u

/- JS falsiness of a cache read result: absent, or present but empty.  -/
def isFalsy (o : Option String) : Prop := o = none ∨ o = some ""

/- Invariant relating the evolving store to the initial one while a batch of
   fetches for one format runs (only used when caching is on): a key either
   still has its initial binding, or its initial binding was falsy and it now
   holds the network body of its URL.                                       -/
def cacheAgrees (opts : Opts) (ext : Ext) (format : String) (st0 st : Store) : Prop :=
  opts.cache = true →
    ∀ u : String,
      storeGet st (getCacheKey ext.hash u format) = storeGet st0 (getCacheKey ext.hash u format)
      ∨ (isFalsy (storeGet st0 (getCacheKey ext.hash u format))
          ∧ storeGet st (getCacheKey ext.hash u format) = some (ext.net u))

/- The two-reference css frame used for the duplicate-URL claims. -/
def cssOf (u : String) : String :=
  "a:url(" ++ u ++ ");b:url(" ++ u ++ ");"

/- ================================================================== -/
/- Lemmas and theorems.                                                -/
/- ================================================================== -/

theorem strData_append (a b : String) : (a ++ b).data = a.data ++ b.data := by
  cases a
  cases b
  rfl

theorem strExt {a b : String} (h : a.data = b.data) : a = b := by
  cases a
  cases b
  exact congrArg String.mk h

theorem strMk_data (s : String) : String.mk s.data = s := rfl

theorem assocGet_map_value {α : Type} (g : String → α → α) (l : List (String × α)) (k : String) :
    assocGet (l.map (fun kv => (kv.1, g kv.1 kv.2))) k = (assocGet l k).map (g k) := by
  induction l with
  | nil => rfl
  | cons kv rest ih =>
    by_cases h : kv.1 = k
    · simp [assocGet, h]
    · simp [assocGet, h, ih]

theorem assocGet_append {α : Type} (l1 l2 : List (String × α)) (k : String) :
    assocGet (l1 ++ l2) k
      = match assocGet l1 k with
        | some v => some v
        | none => assocGet l2 k := by
  induction l1 with
  | nil => rfl
  | cons kv rest ih =>
    by_cases h : kv.1 = k
    · simp [assocGet, h]
    · simp [assocGet, h, ih]

theorem assocGet_filter_key {α : Type} (q : String → Bool) (l : List (String × α)) (k : String) :
    assocGet (l.filter (fun kv => q kv.1)) k = if q k then assocGet l k else none := by
  induction l with
  | nil => simp [assocGet]
  | cons kv rest ih =>
    by_cases hq : q kv.1
    · by_cases hk : kv.1 = k
      · subst hk
        simp [List.filter, hq, assocGet]
      · simp [List.filter, hq, assocGet, hk, ih]
    · by_cases hk : kv.1 = k
      · subst hk
        simp [List.filter, hq, assocGet, ih]
      · simp [List.filter, hq, assocGet, hk, ih]

theorem assocGet_objAssign (a b : List (String × JVal)) (k : String) :
    assocGet (objAssign a b) k
      = match assocGet b k with
        | some v => some v
        | none => assocGet a k := by
  unfold objAssign
  rw [assocGet_append]
  rw [assocGet_map_value (fun k2 v => (assocGet b k2).getD v) a k]
  rw [assocGet_filter_key (fun k2 => (assocGet a k2).isNone) b k]
  cases ha : assocGet a k <;> cases hb : assocGet b k <;> simp [ha, hb]

/-- C3 (amended): the constructor resolves settings by a SHALLOW merge
(Object.assign): for every top-level key, the resolved value is the user
value when the user object has the key and the default value otherwise;
nested objects from the user replace the default object wholesale. -/
theorem pluginConstructorFromObject_shallow_merge
    (options : List (String × JVal)) (k : String) :
    assocGet (pluginConstructorFromObject options) k
      = match assocGet options k with
        | some v => some v
        | none => assocGet defaultOptionsJ k :=
  assocGet_objAssign defaultOptionsJ options k

/- C3 counterexample: supplying formatAgents with only a woff2 key makes the
   resolved formatAgents lose the default eot agent entirely, so a nested
   field not supplied by the user does NOT retain its default value. -/
theorem pluginConstructorFromObject_drops_nested_defaults :
    ((assocGet (pluginConstructorFromObject
        [("formatAgents", JVal.obj [("woff2", JVal.str "X")])]) "formatAgents").bind
      (fun v => jget v "eot")) = none
    ∧ ((assocGet defaultOptionsJ "formatAgents").bind (fun v => jget v "eot")).isSome = true := by
  constructor
  · rfl
  · rfl

/-- C6: the cache key format ++ "-" ++ sha1hex(url) is deterministic (equal
inputs give equal keys, the right-to-left direction) and injective across
(url, format) pairs given that the digest function has fixed-length output
and does not collide on the urls at hand (the claim's own proviso). -/
theorem getCacheKey_deterministic_injective (hash : String → String)
    (u1 f1 u2 f2 : String)
    (hlen : (hash u1).length = (hash u2).length)
    (hinj : hash u1 = hash u2 → u1 = u2) :
    getCacheKey hash u1 f1 = getCacheKey hash u2 f2 ↔ (u1 = u2 ∧ f1 = f2) := by
  constructor
  · intro h
    have hd := congrArg String.data h
    unfold getCacheKey at hd
    rw [strData_append, strData_append, strData_append, strData_append] at hd
    rw [List.append_assoc, List.append_assoc] at hd
    have hlen2 : ("-".data ++ (hash u1).data).length = ("-".data ++ (hash u2).data).length := by
      have h1 : (hash u1).data.length = (hash u2).data.length := hlen
      simp [List.length_append, h1]
    obtain ⟨hf, hrest⟩ := List.append_inj' hd hlen2
    have hh : (hash u1).data = (hash u2).data := by
      simpa using hrest
    have hu : u1 = u2 := hinj (strExt hh)
    exact ⟨hu, strExt hf⟩
  · rintro ⟨rfl, rfl⟩
    rfl

/- Witness for C6 at a concrete digest function and concrete inputs. -/
theorem getCacheKey_deterministic_injective_witness :
    (getCacheKey (fun s => s) "a" "woff2" = getCacheKey (fun s => s) "b" "woff2"
      ↔ ("a" = "b" ∧ "woff2" = "woff2")) :=
  getCacheKey_deterministic_injective (fun s => s) "a" "woff2" "b" "woff2"
    (by decide) (fun h => h)

/-- C2 (amended): with the cache setting false, requestFont performs no disk
read and two consecutive fetches of the same URL both perform an HTTP GET
with the format's User-Agent; however the fetched body IS written to the
disk cache after every network fetch — the saveToCache call is not guarded
by the cache setting. -/
theorem requestFont_cache_disabled (opts : Opts) (ext : Ext)
    (u format encoding : String) (w : World)
    (hc : opts.cache = false) :
    (requestFont opts ext u format encoding w).2.reads = w.reads
    ∧ (requestFont opts ext u format encoding
        ((requestFont opts ext u format encoding w).2)).2.reads = w.reads
    ∧ (requestFont opts ext u format encoding w).1 = ext.net u
    ∧ (requestFont opts ext u format encoding
        ((requestFont opts ext u format encoding w).2)).1 = ext.net u
    ∧ (requestFont opts ext u format encoding
        ((requestFont opts ext u format encoding w).2)).2.gets
        = w.gets ++ [(u, assocGet opts.formatAgents format),
                     (u, assocGet opts.formatAgents format)]
    ∧ storeGet (requestFont opts ext u format encoding w).2.store
        (getCacheKey ext.hash u format) = some (ext.net u) := by
  simp [requestFont, fetchAndStore, saveToCache, hc, storeGet, assocGet]

/- Witness for C2's amended statement at concrete inputs. -/
theorem requestFont_cache_disabled_witness :
    (requestFont { defaultOpts with cache := false }
        ⟨fun s => s, fun _ => "BODY", fun s => s⟩
        "https://x/f.woff2" "woff2" "utf8" ⟨[], 0, []⟩).2.reads = 0
    ∧ (requestFont { defaultOpts with cache := false }
        ⟨fun s => s, fun _ => "BODY", fun s => s⟩
        "https://x/f.woff2" "woff2" "utf8"
        ((requestFont { defaultOpts with cache := false }
          ⟨fun s => s, fun _ => "BODY", fun s => s⟩
          "https://x/f.woff2" "woff2" "utf8" ⟨[], 0, []⟩).2)).2.reads = 0
    ∧ (requestFont { defaultOpts with cache := false }
        ⟨fun s => s, fun _ => "BODY", fun s => s⟩
        "https://x/f.woff2" "woff2" "utf8" ⟨[], 0, []⟩).1
        = (fun (_ : String) => "BODY") "https://x/f.woff2"
    ∧ (requestFont { defaultOpts with cache := false }
        ⟨fun s => s, fun _ => "BODY", fun s => s⟩
        "https://x/f.woff2" "woff2" "utf8"
        ((requestFont { defaultOpts with cache := false }
          ⟨fun s => s, fun _ => "BODY", fun s => s⟩
          "https://x/f.woff2" "woff2" "utf8" ⟨[], 0, []⟩).2)).1
        = (fun (_ : String) => "BODY") "https://x/f.woff2"
    ∧ (requestFont { defaultOpts with cache := false }
        ⟨fun s => s, fun _ => "BODY", fun s => s⟩
        "https://x/f.woff2" "woff2" "utf8"
        ((requestFont { defaultOpts with cache := false }
          ⟨fun s => s, fun _ => "BODY", fun s => s⟩
          "https://x/f.woff2" "woff2" "utf8" ⟨[], 0, []⟩).2)).2.gets
        = [] ++ [("https://x/f.woff2",
              assocGet ({ defaultOpts with cache := false } : Opts).formatAgents "woff2"),
            ("https://x/f.woff2",
              assocGet ({ defaultOpts with cache := false } : Opts).formatAgents "woff2")]
    ∧ storeGet (requestFont { defaultOpts with cache := false }
        ⟨fun s => s, fun _ => "BODY", fun s => s⟩
        "https://x/f.woff2" "woff2" "utf8" ⟨[], 0, []⟩).2.store
        (getCacheKey (fun s => s) "https://x/f.woff2" "woff2")
        = some ((fun (_ : String) => "BODY") "https://x/f.woff2") :=
  requestFont_cache_disabled { defaultOpts with cache := false }
    ⟨fun s => s, fun _ => "BODY", fun s => s⟩
    "https://x/f.woff2" "woff2" "utf8" ⟨[], 0, []⟩ rfl

/- C2 counterexample: with cache set to false the fetch still writes the
   body into the disk cache — the cache state is NOT unchanged. -/
theorem requestFont_stores_despite_cache_false :
    (requestFont { defaultOpts with cache := false }
        ⟨fun s => s, fun _ => "BODY", fun s => s⟩
        "https://x/f.woff2" "woff2" "utf8" ⟨[], 0, []⟩).2.store
      = [("woff2-https://x/f.woff2", "BODY")] := by
  rfl

/- C4 counterexample: a family-less descriptor contributes a null (none)
   placeholder to the returned array rather than being skipped. -/
theorem createRequestStrings_null_placeholder :
    createRequestStrings
        { defaultOpts with fonts :=
            [ { family := "Roboto", variants := some ["400"], subsets := some ["latin"] }
            , { family := "", variants := none, subsets := none } ] }
      = [some "https://fonts.googleapis.com/css?family=Roboto:400&subset=latin", none] := by
  rfl

/-- C4 (amended): createRequestStrings yields exactly one element per
descriptor (the result length equals the descriptor count); a descriptor
with a non-empty family yields its request URL at its position and a
family-less descriptor yields a null placeholder at its position. -/
theorem createRequestStrings_placeholder_characterization (opts : Opts) (i : Nat) :
    (createRequestStrings opts).length = opts.fonts.length
    ∧ (createRequestStrings opts)[i]?
        = (opts.fonts[i]?).map (fun item =>
            if item.family = "" then none else some (requestStringFor item)) := by
  constructor
  · simp [createRequestStrings]
  · simp [createRequestStrings]

/-- C9: constructing the plugin from a file path fails with ConfigReadError
when the path cannot be read, and with ConfigParseError when the content is
invalid for its declared format (neon by extension, else JSON); in neither
case does it return a resolved settings object. -/
theorem pluginConstructor_config_errors (fsys : String → Option String)
    (parseJson parseNeon : String → Option JVal) (path : String) :
    (fsys path = none →
      pluginConstructorFromPath fsys parseJson parseNeon path
        = Except.error CfgErr.configRead)
    ∧ (∀ file, fsys path = some file →
        (if endsWithNeon path then parseNeon (String.mk (stripCRLF file.data))
         else parseJson file) = none →
        pluginConstructorFromPath fsys parseJson parseNeon path
          = Except.error CfgErr.configParse) := by
  constructor
  · intro h
    simp [pluginConstructorFromPath, h]
  · intro file hf hp
    simp [pluginConstructorFromPath, hf, hp]

/- Witness for C9: a missing file and an unparsable file, concretely. -/
theorem pluginConstructor_config_errors_witness :
    pluginConstructorFromPath (fun _ => none) (fun _ => none) (fun _ => none)
        "fonts.json" = Except.error CfgErr.configRead
    ∧ pluginConstructorFromPath (fun _ => some "no json") (fun _ => none) (fun _ => none)
        "fonts.json" = Except.error CfgErr.configParse :=
  ⟨(pluginConstructor_config_errors (fun _ => none) (fun _ => none) (fun _ => none)
      "fonts.json").1 rfl,
   (pluginConstructor_config_errors (fun _ => some "no json") (fun _ => none) (fun _ => none)
      "fonts.json").2 "no json" rfl (by rfl)⟩

/-- C10: with encoding enabled, encodeFonts on a CSS text with no url(...)
occurrence throws (css.match returns null and the .map call on it raises a
TypeError); it does not return the input unchanged. -/
theorem encodeFonts_no_match_throws (opts : Opts) (ext : Ext) (css : String) (w : World)
    (henc : opts.encode = true) (hnm : strMatchUrls css = []) :
    encodeFonts opts ext css w = Except.error Err.matchNull := by
  simp [encodeFonts, henc, hnm]

/- Witness for C10 at the empty stylesheet. -/
theorem encodeFonts_no_match_throws_witness :
    encodeFonts defaultOpts ⟨fun s => s, fun s => s, fun s => s⟩ "" ⟨[], 0, []⟩
      = Except.error Err.matchNull :=
  encodeFonts_no_match_throws defaultOpts ⟨fun s => s, fun s => s, fun s => s⟩
    "" ⟨[], 0, []⟩ rfl rfl

/- ------------------------------------------------------------------ -/
/- Replacement correctness lemmas.                                     -/

theorem firstSplit_eq (pat : List Char) :
    ∀ l pq, firstSplit pat l = some pq → l = pq.1 ++ pat ++ pq.2 := by
  intro l
  induction l with
  | nil =>
    intro pq h
    unfold firstSplit at h
    by_cases hp : pat.isEmpty
    · rw [if_pos hp] at h
      cases h
      simp [List.isEmpty_iff.mp hp]
    · rw [if_neg hp] at h
      cases h
  | cons c rest ih =>
    intro pq h
    unfold firstSplit at h
    by_cases hp : pat.isPrefixOf (c :: rest)
    · rw [if_pos hp] at h
      cases h
      obtain ⟨t, ht⟩ := List.isPrefixOf_iff_prefix.mp hp
      rw [← ht]
      simp [List.drop_left]
    · rw [if_neg hp] at h
      cases hfs : firstSplit pat rest with
      | none => rw [hfs] at h; cases h
      | some pq2 =>
        rw [hfs] at h
        cases h
        have := ih pq2 hfs
        simp [this]

theorem jsSubstituteGo_id (matched pre post : List Char) :
    ∀ (n : Nat) (l : List Char), hasSubstPattern l = false →
      jsSubstituteGo matched pre post n l = l := by
  intro n
  induction n with
  | zero =>
    intro l _
    cases l <;> rfl
  | succ n ih =>
    intro l h
    cases l with
    | nil => rfl
    | cons c rest =>
      by_cases hc : c = '$'
      · subst hc
        cases rest with
        | nil => rfl
        | cons d rest2 =>
          rw [hasSubstPattern.eq_def] at h
          rw [jsSubstituteGo.eq_def]
          by_cases h1 : d = '$'
          · simp [h1] at h
          · by_cases h2 : d = '&'
            · simp [h1, h2] at h
            · by_cases h3 : d = bqChar
              · simp [h1, h2, h3] at h
              · by_cases h4 : d = sqChar
                · simp [h1, h2, h3, h4] at h
                · simp [h1, h2, h3, h4] at h
                  simp [h1, h2, h3, h4, ih rest2 h]
      · rw [hasSubstPattern.eq_def] at h
        rw [jsSubstituteGo.eq_def]
        simp [hc] at h
        simp [hc, ih rest h]

theorem jsSubstitute_id (matched pre post l : List Char)
    (h : hasSubstPattern l = false) :
    jsSubstitute matched pre post l = l :=
  jsSubstituteGo_id matched pre post l.length l h

theorem jsReplaceFirst_self (s u : String)
    (hdol : hasSubstPattern u.data = false) : jsReplaceFirst s u u = s := by
  unfold jsReplaceFirst
  cases h : firstSplit u.data s.data with
  | none => rfl
  | some pq =>
    have he := firstSplit_eq u.data s.data pq h
    show String.mk (pq.1 ++ jsSubstitute u.data pq.1 pq.2 u.data ++ pq.2) = s
    rw [jsSubstitute_id u.data pq.1 pq.2 u.data hdol]
    apply strExt
    simp [he]

theorem replaceLoop_self (l : List String)
    (hdol : ∀ u ∈ l, hasSubstPattern u.data = false) :
    ∀ css, replaceLoop css l l = css := by
  induction l with
  | nil => intro css; rfl
  | cons u us ih =>
    intro css
    show replaceLoop (jsReplaceFirst css u u) us us = css
    rw [jsReplaceFirst_self css u (hdol u (by simp))]
    exact ih (fun v hv => hdol v (by simp [hv])) css

theorem requestFontFiles_data_urls (opts : Opts) (ext : Ext) :
    ∀ (l : List String) (w : World), (∀ u ∈ l, isDataAppUri u = true) →
      requestFontFiles opts ext l w = Except.ok (l, w) := by
  intro l
  induction l with
  | nil => intro w _; rfl
  | cons u us ih =>
    intro w h
    have hu : isDataAppUri u = true := h u (by simp)
    have hrest := ih w (fun v hv => h v (by simp [hv]))
    simp [requestFontFiles, requestFontFile, hu, hrest]

/-- C8 (amended): encodeFonts is the identity, with no fetch and no cache
access, on a CSS text whose url(...) references (at least one) all carry
already-inlined "data:application/ URIs AND contain no active JS
substitution pattern — each reference is returned as-is and replacing a
pattern-free substring occurrence by itself leaves the text unchanged.  A
reference containing a pattern such as dollar-ampersand is expanded by
String.replace and the output differs, see the counterexample. -/
theorem encodeFonts_idempotent_on_data_uris (opts : Opts) (ext : Ext)
    (css : String) (w : World)
    (hne : strMatchUrls css ≠ [])
    (hdata : ∀ u ∈ strMatchUrls css, isDataAppUri u = true)
    (hdol : ∀ u ∈ strMatchUrls css, hasSubstPattern u.data = false) :
    encodeFonts opts ext css w = Except.ok (css, w) := by
  unfold encodeFonts
  by_cases henc : opts.encode = true
  · rw [if_pos henc]
    cases hm : strMatchUrls css with
    | nil => exact absurd hm hne
    | cons u us =>
      rw [hm] at hdata hdol
      have h1 := requestFontFiles_data_urls opts ext (u :: us) w hdata
      have h2 := replaceLoop_self (u :: us) hdol css
      simp [h1, h2]
  · rw [if_neg henc]

/- Witness for C8 on a concrete all-inlined stylesheet. -/
theorem encodeFonts_idempotent_witness :
    encodeFonts defaultOpts ⟨fun s => s, fun s => s, fun s => s⟩
        "s:url(\"data:application/x-font-woff2;base64,AA\");" ⟨[], 0, []⟩
      = Except.ok ("s:url(\"data:application/x-font-woff2;base64,AA\");", ⟨[], 0, []⟩) :=
  encodeFonts_idempotent_on_data_uris defaultOpts ⟨fun s => s, fun s => s, fun s => s⟩
    "s:url(\"data:application/x-font-woff2;base64,AA\");" ⟨[], 0, []⟩
    (by decide) (by decide) (by decide)

/- C8 counterexample: a url(...) reference that passes the
   "data:application/ check but contains the substitution pattern
   dollar-ampersand.  requestFontFile returns it untouched, but
   String.replace expands the pattern in the replacement text (the matched
   substring is spliced into itself), so the output differs from the input:
   encode is NOT idempotent on every text whose references are all inlined
   data URIs. -/
theorem encodeFonts_dollar_not_idempotent :
    strMatchUrls "a:url(\"data:application/$&);" = ["\"data:application/$&"]
    ∧ isDataAppUri "\"data:application/$&" = true
    ∧ (encodeFonts defaultOpts ⟨fun s => s, fun s => s, fun s => s⟩
        "a:url(\"data:application/$&);" ⟨[], 0, []⟩).toOption.map (fun p => p.1)
      = some "a:url(\"data:application/\"data:application/$&);"
    ∧ ("a:url(\"data:application/\"data:application/$&);" : String)
      ≠ "a:url(\"data:application/$&);" := by
  refine ⟨by decide, by decide, by decide, by decide⟩

/- ------------------------------------------------------------------ -/
/- Error propagation through requestFontFiles (C5).                    -/

theorem requestFontFile_error_shape (opts : Opts) (ext : Ext) (u : String) (w : World)
    (e : Err) (h : requestFontFile opts ext u w = Except.error e) :
    e = Err.formatInference u := by
  unfold requestFontFile at h
  by_cases hd : isDataAppUri u = true
  · rw [if_pos hd] at h
    cases h
  · rw [if_neg hd] at h
    cases hf : inferFormat opts.formats u with
    | none => rw [hf] at h; cases h; rfl
    | some fmt => rw [hf] at h; cases h

theorem requestFontFiles_error_shape (opts : Opts) (ext : Ext) :
    ∀ (l : List String) (w : World) (e : Err),
      requestFontFiles opts ext l w = Except.error e → ∃ v, e = Err.formatInference v := by
  intro l
  induction l with
  | nil =>
    intro w e h
    cases h
  | cons u us ih =>
    intro w e h
    cases hf : requestFontFile opts ext u w with
    | error e2 =>
      simp [requestFontFiles, hf] at h
      subst h
      exact ⟨u, requestFontFile_error_shape opts ext u w e2 hf⟩
    | ok p =>
      cases hrest : requestFontFiles opts ext us p.2 with
      | error e2 =>
        simp [requestFontFiles, hf, hrest] at h
        subst h
        exact ih p.2 e2 hrest
      | ok q =>
        simp [requestFontFiles, hf, hrest] at h

theorem requestFontFiles_fails_of_bad_url (opts : Opts) (ext : Ext) (u : String)
    (hd : isDataAppUri u = false) (hf : inferFormat opts.formats u = none) :
    ∀ (l : List String) (w : World), u ∈ l →
      ∃ e, requestFontFiles opts ext l w = Except.error e := by
  intro l
  induction l with
  | nil => intro w h; cases h
  | cons v vs ih =>
    intro w hmem
    cases hrf : requestFontFile opts ext v w with
    | error e =>
      refine ⟨e, ?_⟩
      simp [requestFontFiles, hrf]
    | ok p =>
      rcases List.mem_cons.mp hmem with h | h
      · subst h
        simp [requestFontFile, hd, hf] at hrf
      · obtain ⟨e, he⟩ := ih p.2 h
        refine ⟨e, ?_⟩
        simp [requestFontFiles, hrf, he]

/-- C5: with encoding enabled, a url(...) reference whose inner URL is not an
inlined data URI and whose trailing characters match none of the configured
formats makes encodeFonts fail with the format-inference error (the [1]
access on the null regex match result), and the failure is the value
encodeFonts returns to its caller. -/
theorem encodeFonts_format_inference_error (opts : Opts) (ext : Ext)
    (css u : String) (w : World)
    (henc : opts.encode = true)
    (hu : u ∈ strMatchUrls css)
    (hd : isDataAppUri u = false)
    (hf : inferFormat opts.formats u = none) :
    ∃ v, encodeFonts opts ext css w = Except.error (Err.formatInference v) := by
  unfold encodeFonts
  rw [if_pos henc]
  cases hm : strMatchUrls css with
  | nil => rw [hm] at hu; cases hu
  | cons a as =>
    rw [hm] at hu
    obtain ⟨e, he⟩ := requestFontFiles_fails_of_bad_url opts ext u hd hf (a :: as) w hu
    obtain ⟨v, hv⟩ := requestFontFiles_error_shape opts ext (a :: as) w e he
    subst hv
    refine ⟨v, ?_⟩
    simp [he]

/- Witness for C5: a reference ending in .xyz matches no default format. -/
theorem encodeFonts_format_inference_error_witness :
    ∃ v, encodeFonts defaultOpts ⟨fun s => s, fun s => s, fun s => s⟩
        "a:url(http://x/f.xyz);" ⟨[], 0, []⟩
      = Except.error (Err.formatInference v) :=
  encodeFonts_format_inference_error defaultOpts ⟨fun s => s, fun s => s, fun s => s⟩
    "a:url(http://x/f.xyz);" "http://x/f.xyz" ⟨[], 0, []⟩
    rfl (by decide) (by decide) (by decide)

/- ------------------------------------------------------------------ -/
/- requestFont computation lemmas and the fetch/cache invariant (C7).  -/

theorem storeGet_cons_self (st : Store) (k v : String) :
    storeGet ((k, v) :: st) k = some v := by
  simp [storeGet, assocGet]

theorem storeGet_cons_ne (st : Store) (k k2 v : String) (h : k ≠ k2) :
    storeGet ((k, v) :: st) k2 = storeGet st k2 := by
  simp [storeGet, assocGet, h]

theorem getCacheKey_same_format_inj (hash : String → String) (format u1 u2 : String)
    (hinj : ∀ a b, hash a = hash b → a = b)
    (h : getCacheKey hash u1 format = getCacheKey hash u2 format) : u1 = u2 := by
  apply hinj
  apply strExt
  have hd := congrArg String.data h
  unfold getCacheKey at hd
  rw [strData_append, strData_append, strData_append, strData_append] at hd
  exact List.append_cancel_left hd

theorem requestFont_nocache (opts : Opts) (ext : Ext)
    (u format encoding : String) (w : World) (hc : opts.cache = false) :
    requestFont opts ext u format encoding w
      = (ext.net u,
          { store := (getCacheKey ext.hash u format, ext.net u) :: w.store
          , reads := w.reads
          , gets := w.gets ++ [(u, assocGet opts.formatAgents format)] }) := by
  simp [requestFont, fetchAndStore, saveToCache, hc]

theorem requestFont_hit (opts : Opts) (ext : Ext)
    (u format encoding v : String) (w : World) (hc : opts.cache = true)
    (hv : storeGet w.store (getCacheKey ext.hash u format) = some v) (hne : v ≠ "") :
    requestFont opts ext u format encoding w
      = (v, { w with reads := w.reads + 1 }) := by
  simp [requestFont, getFromCache, hc, hv, hne]

theorem requestFont_miss (opts : Opts) (ext : Ext)
    (u format encoding : String) (w : World) (hc : opts.cache = true)
    (hv : isFalsy (storeGet w.store (getCacheKey ext.hash u format))) :
    requestFont opts ext u format encoding w
      = (ext.net u,
          { store := (getCacheKey ext.hash u format, ext.net u) :: w.store
          , reads := w.reads + 1
          , gets := w.gets ++ [(u, assocGet opts.formatAgents format)] }) := by
  rcases hv with hv | hv
  · simp [requestFont, getFromCache, fetchAndStore, saveToCache, hc, hv]
  · simp [requestFont, getFromCache, fetchAndStore, saveToCache, hc, hv]

theorem requestFont_canon (opts : Opts) (ext : Ext) (format : String)
    (hinj : ∀ a b, ext.hash a = ext.hash b → a = b)
    (st0 : Store) (u encoding : String) (w : World)
    (hI : cacheAgrees opts ext format st0 w.store) :
    (requestFont opts ext u format encoding w).1 = canonText opts ext format st0 u
    ∧ cacheAgrees opts ext format st0 (requestFont opts ext u format encoding w).2.store := by
  cases hc : opts.cache with
  | false =>
    rw [requestFont_nocache opts ext u format encoding w hc]
    constructor
    · simp [canonText, hc]
    · intro hct
      rw [hc] at hct
      cases hct
  | true =>
    rcases hI hc u with heq | ⟨hfal, hval⟩
    · cases h0 : storeGet st0 (getCacheKey ext.hash u format) with
      | none =>
        have hcur : storeGet w.store (getCacheKey ext.hash u format) = none := by
          rw [heq, h0]
        rw [requestFont_miss opts ext u format encoding w hc (Or.inl hcur)]
        constructor
        · simp [canonText, hc, h0]
        · intro _ u2
          by_cases hk : getCacheKey ext.hash u2 format = getCacheKey ext.hash u format
          · have hu2 : u2 = u := getCacheKey_same_format_inj ext.hash format u2 u hinj hk
            subst hu2
            right
            refine ⟨by rw [h0]; exact Or.inl rfl, ?_⟩
            simp [hk, storeGet_cons_self]
          · rw [storeGet_cons_ne _ _ _ _ (fun he => hk he.symm)]
            exact hI hc u2
      | some v =>
        have hcur : storeGet w.store (getCacheKey ext.hash u format) = some v := by
          rw [heq, h0]
        by_cases hev : v = ""
        · subst hev
          rw [requestFont_miss opts ext u format encoding w hc (Or.inr hcur)]
          constructor
          · simp [canonText, hc, h0]
          · intro _ u2
            by_cases hk : getCacheKey ext.hash u2 format = getCacheKey ext.hash u format
            · have hu2 : u2 = u := getCacheKey_same_format_inj ext.hash format u2 u hinj hk
              subst hu2
              right
              refine ⟨by rw [h0]; exact Or.inr rfl, ?_⟩
              simp [hk, storeGet_cons_self]
            · rw [storeGet_cons_ne _ _ _ _ (fun he => hk he.symm)]
              exact hI hc u2
        · rw [requestFont_hit opts ext u format encoding v w hc hcur hev]
          constructor
          · simp [canonText, hc, h0, hev]
          · intro _ u2
            exact hI hc u2
    · by_cases hev : ext.net u = ""
      · have hcur : storeGet w.store (getCacheKey ext.hash u format) = some "" := by
          rw [hval, hev]
        rw [requestFont_miss opts ext u format encoding w hc (Or.inr hcur)]
        constructor
        · rcases hfal with h0 | h0 <;> simp [canonText, hc, h0]
        · intro _ u2
          by_cases hk : getCacheKey ext.hash u2 format = getCacheKey ext.hash u format
          · have hu2 : u2 = u := getCacheKey_same_format_inj ext.hash format u2 u hinj hk
            subst hu2
            right
            refine ⟨hfal, ?_⟩
            simp [hk, storeGet_cons_self]
          · rw [storeGet_cons_ne _ _ _ _ (fun he => hk he.symm)]
            exact hI hc u2
      · rw [requestFont_hit opts ext u format encoding (ext.net u) w hc hval hev]
        constructor
        · rcases hfal with h0 | h0 <;> simp [canonText, hc, h0]
        · intro _ u2
          exact hI hc u2

theorem requestFontsLoop_canon (opts : Opts) (ext : Ext) (format : String)
    (hinj : ∀ a b, ext.hash a = ext.hash b → a = b) (st0 : Store) :
    ∀ (urls : List String) (w : World), cacheAgrees opts ext format st0 w.store →
      (requestFontsLoop opts ext format urls w).1
          = urls.map (canonText opts ext format st0)
      ∧ cacheAgrees opts ext format st0
          (requestFontsLoop opts ext format urls w).2.store := by
  intro urls
  induction urls with
  | nil => intro w hI; exact ⟨rfl, hI⟩
  | cons u rest ih =>
    intro w hI
    obtain ⟨h1, h2⟩ := requestFont_canon opts ext format hinj st0 u "utf8" w hI
    obtain ⟨h3, h4⟩ := ih (requestFont opts ext u format "utf8" w).2 h2
    constructor
    · simp [requestFontsLoop, h1, h3]
    · simpa [requestFontsLoop] using h4

theorem reduceOption_requestStrings (fonts : List FontDescriptor)
    (hfam : ∀ item ∈ fonts, item.family ≠ "") :
    (fonts.map (fun item =>
        if item.family = "" then none else some (requestStringFor item))).reduceOption
      = fonts.map requestStringFor := by
  induction fonts with
  | nil => rfl
  | cons f fs ih =>
    have hf : f.family ≠ "" := hfam f (by simp)
    have ih2 := ih (fun i hi => hfam i (by simp [hi]))
    simp [List.reduceOption] at ih2
    simp [hf, List.reduceOption, ih2]

theorem createRequestStrings_all_some (opts : Opts)
    (hfam : ∀ item ∈ opts.fonts, item.family ≠ "") :
    (createRequestStrings opts).all Option.isSome = true := by
  simp [createRequestStrings, List.all_eq_true]
  intro item hmem
  simp [hfam item hmem]

/-- C7: requestFontsCSS returns the concatenation, in descriptor order and
with no separator, of the stylesheet text fetched for each request URL (the
cached text when caching is on and a non-empty entry pre-exists, the network
body otherwise); the fan-in is positional, so the output order equals the
input order.  Requires every descriptor to have a family (a null request
string crashes getCacheKey) and a collision-free digest. -/
theorem requestFontsCSS_ordered_concat (opts : Opts) (ext : Ext)
    (format : String) (w : World)
    (hfam : ∀ item ∈ opts.fonts, item.family ≠ "")
    (hinj : ∀ a b, ext.hash a = ext.hash b → a = b) :
    ∃ w2, requestFontsCSS opts ext format w
      = some (String.join ((opts.fonts.map requestStringFor).map
          (canonText opts ext format w.store)), w2) := by
  have hall := createRequestStrings_all_some opts hfam
  have hred : (createRequestStrings opts).reduceOption = opts.fonts.map requestStringFor :=
    reduceOption_requestStrings opts.fonts hfam
  have hI0 : cacheAgrees opts ext format w.store w.store := by
    intro _ u
    exact Or.inl rfl
  obtain ⟨h1, _⟩ := requestFontsLoop_canon opts ext format hinj w.store
    ((createRequestStrings opts).reduceOption) w hI0
  rw [hred] at h1
  refine ⟨(requestFontsLoop opts ext format (List.map requestStringFor opts.fonts) w).2, ?_⟩
  simp [requestFontsCSS, hall, hred, h1, List.map_map]

/- Witness for C7 at the default settings and a concrete world. -/
theorem requestFontsCSS_ordered_concat_witness :
    ∃ w2, requestFontsCSS defaultOpts ⟨fun s => s, fun _ => "CSS", fun s => s⟩
        "woff2" ⟨[], 0, []⟩
      = some (String.join ((defaultOpts.fonts.map requestStringFor).map
          (canonText defaultOpts ⟨fun s => s, fun _ => "CSS", fun s => s⟩ "woff2"
            (⟨[], 0, []⟩ : World).store)), w2) :=
  requestFontsCSS_ordered_concat defaultOpts ⟨fun s => s, fun _ => "CSS", fun s => s⟩
    "woff2" ⟨[], 0, []⟩ (by decide) (fun a b h => h)

/- ------------------------------------------------------------------ -/
/- url(...) scanning lemmas (C1).                                      -/

theorem scanInner_shrink :
    ∀ (l acc i r : List Char), scanInner acc l = some (i, r) → r.length < l.length := by
  intro l
  induction l with
  | nil => intro acc i r h; cases h
  | cons c rest ih =>
    intro acc i r h
    unfold scanInner at h
    by_cases h1 : c = ')'
    · rw [if_pos h1] at h
      cases h
      simp
    · rw [if_neg h1] at h
      by_cases h2 : c = '\n'
      · rw [if_pos h2] at h
        cases h
      · rw [if_neg h2] at h
        have := ih (c :: acc) i r h
        simp only [List.length_cons]
        omega

theorem takeInner_shrink (l i r : List Char) (h : takeInner l = some (i, r)) :
    r.length < l.length := by
  cases l with
  | nil => cases h
  | cons c rest =>
    simp only [takeInner] at h
    by_cases hc : c = '\n'
    · rw [if_pos hc] at h
      cases h
    · rw [if_neg hc] at h
      have := scanInner_shrink rest [c] i r h
      simp only [List.length_cons]
      omega

theorem matchUrlsGo_mono :
    ∀ (f1 f2 : Nat) (l : List Char), l.length ≤ f1 → l.length ≤ f2 →
      matchUrlsGo f1 l = matchUrlsGo f2 l := by
  intro f1
  induction f1 with
  | zero =>
    intro f2 l h1 h2
    have hl : l = [] := List.length_eq_zero.mp (Nat.le_zero.mp h1)
    subst hl
    cases f2 <;> rfl
  | succ f ih =>
    intro f2 l h1 h2
    cases l with
    | nil => cases f2 <;> rfl
    | cons c rest =>
      cases f2 with
      | zero => simp at h2
      | succ g =>
        have hr1 : rest.length ≤ f := by
          simp only [List.length_cons] at h1
          omega
        have hr2 : rest.length ≤ g := by
          simp only [List.length_cons] at h2
          omega
        by_cases ho : isUrlOpen (c :: rest) = true
        · cases ht : takeInner (rest.drop 3) with
          | none =>
            simp [matchUrlsGo, ho, ht]
            exact ih g rest hr1 hr2
          | some ia =>
            obtain ⟨inner, after⟩ := ia
            have hlt := takeInner_shrink (rest.drop 3) inner after ht
            have hdl : (rest.drop 3).length = rest.length - 3 := List.length_drop 3 rest
            simp [matchUrlsGo, ho, ht]
            exact ih g after (by omega) (by omega)
        · simp [matchUrlsGo, ho]
          exact ih g rest hr1 hr2

theorem matchUrls_skip (c : Char) (rest : List Char)
    (h : isUrlOpen (c :: rest) = false) :
    matchUrls (c :: rest) = matchUrls rest := by
  show matchUrlsGo (c :: rest).length (c :: rest) = matchUrlsGo rest.length rest
  simp only [List.length_cons]
  simp [matchUrlsGo, h]

theorem matchUrls_hit (c : Char) (rest inner after : List Char)
    (ho : isUrlOpen (c :: rest) = true)
    (ht : takeInner (rest.drop 3) = some (inner, after)) :
    matchUrls (c :: rest) = inner :: matchUrls after := by
  show matchUrlsGo (c :: rest).length (c :: rest) = inner :: matchUrlsGo after.length after
  simp only [List.length_cons]
  simp [matchUrlsGo, ho, ht]
  have hlt := takeInner_shrink (rest.drop 3) inner after ht
  have hdl : (rest.drop 3).length = rest.length - 3 := List.length_drop 3 rest
  exact matchUrlsGo_mono rest.length after.length after (by omega) (le_refl _)

theorem scanInner_clean :
    ∀ (u acc r : List Char), (∀ c ∈ u, c ≠ ')' ∧ c ≠ '\n') →
      scanInner acc (u ++ ')' :: r) = some (acc.reverse ++ u, r) := by
  intro u
  induction u with
  | nil =>
    intro acc r h
    simp [scanInner]
  | cons c u0 ih =>
    intro acc r h
    have hc := h c (by simp)
    have step : scanInner acc ((c :: u0) ++ ')' :: r) = scanInner (c :: acc) (u0 ++ ')' :: r) := by
      simp [scanInner, hc.1, hc.2]
    rw [step, ih (c :: acc) r (fun d hd => h d (by simp [hd]))]
    simp

theorem takeInner_clean (u r : List Char) (hne : u ≠ [])
    (h : ∀ c ∈ u, c ≠ ')' ∧ c ≠ '\n') :
    takeInner (u ++ ')' :: r) = some (u, r) := by
  cases u with
  | nil => exact absurd rfl hne
  | cons c u0 =>
    have hc := h c (by simp)
    have step : takeInner ((c :: u0) ++ ')' :: r) = scanInner [c] (u0 ++ ')' :: r) := by
      simp [takeInner, hc.2]
    rw [step, scanInner_clean u0 [c] r (fun d hd => h d (by simp [hd]))]
    simp

theorem matchUrls_two_frame (u : List Char) (hne : u ≠ [])
    (hcl : ∀ c ∈ u, c ≠ ')' ∧ c ≠ '\n') :
    matchUrls ('a' :: ':' :: 'u' :: 'r' :: 'l' :: '(' ::
        (u ++ ')' :: ';' :: 'b' :: ':' :: 'u' :: 'r' :: 'l' :: '(' :: (u ++ [')', ';'])))
      = [u, u] := by
  have ht1 := takeInner_clean u
    (';' :: 'b' :: ':' :: 'u' :: 'r' :: 'l' :: '(' :: (u ++ [')', ';'])) hne hcl
  have ht2 := takeInner_clean u [';'] hne hcl
  have e1 := matchUrls_skip 'a'
    (':' :: 'u' :: 'r' :: 'l' :: '(' ::
      (u ++ ')' :: ';' :: 'b' :: ':' :: 'u' :: 'r' :: 'l' :: '(' :: (u ++ [')', ';'])))
    (by simp [isUrlOpen])
  have e2 := matchUrls_skip ':'
    ('u' :: 'r' :: 'l' :: '(' ::
      (u ++ ')' :: ';' :: 'b' :: ':' :: 'u' :: 'r' :: 'l' :: '(' :: (u ++ [')', ';'])))
    (by simp [isUrlOpen])
  have e3 := matchUrls_hit 'u'
    ('r' :: 'l' :: '(' ::
      (u ++ ')' :: ';' :: 'b' :: ':' :: 'u' :: 'r' :: 'l' :: '(' :: (u ++ [')', ';'])))
    u (';' :: 'b' :: ':' :: 'u' :: 'r' :: 'l' :: '(' :: (u ++ [')', ';']))
    (by simp [isUrlOpen]) (by simpa using ht1)
  have e4 := matchUrls_skip ';'
    ('b' :: ':' :: 'u' :: 'r' :: 'l' :: '(' :: (u ++ [')', ';'])) (by simp [isUrlOpen])
  have e5 := matchUrls_skip 'b'
    (':' :: 'u' :: 'r' :: 'l' :: '(' :: (u ++ [')', ';'])) (by simp [isUrlOpen])
  have e6 := matchUrls_skip ':'
    ('u' :: 'r' :: 'l' :: '(' :: (u ++ [')', ';'])) (by simp [isUrlOpen])
  have e7 := matchUrls_hit 'u' ('r' :: 'l' :: '(' :: (u ++ [')', ';'])) u [';']
    (by simp [isUrlOpen]) (by simpa using ht2)
  have e8 := matchUrls_skip ';' [] (by simp [isUrlOpen])
  rw [e1, e2, e3, e4, e5, e6, e7, e8]
  rfl

theorem cssOf_data (u : String) :
    (cssOf u).data
      = 'a' :: ':' :: 'u' :: 'r' :: 'l' :: '(' ::
          (u.data ++ ')' :: ';' :: 'b' :: ':' :: 'u' :: 'r' :: 'l' :: '(' ::
            (u.data ++ [')', ';'])) := by
  have h1 : ("a:url(" : String).data = ['a', ':', 'u', 'r', 'l', '('] := rfl
  have h2 : ((");b:url(" : String)).data = [')', ';', 'b', ':', 'u', 'r', 'l', '('] := rfl
  have h3 : ((");" : String)).data = [')', ';'] := rfl
  simp [cssOf, strData_append, h1, h2, h3]

theorem strMatchUrls_cssOf (u : String) (hne : u.data ≠ [])
    (hcl : ∀ c ∈ u.data, c ≠ ')' ∧ c ≠ '\n') :
    strMatchUrls (cssOf u) = [u, u] := by
  unfold strMatchUrls
  rw [cssOf_data, matchUrls_two_frame u.data hne hcl]
  simp [strMk_data]

/- requestFont result helpers for the two-fetch frame (empty initial cache). -/

theorem requestFontFile_fetch (opts : Opts) (ext : Ext) (u f : String) (w : World)
    (hdp : isDataAppUri u = false) (hfmt : inferFormat opts.formats u = some f) :
    requestFontFile opts ext u w
      = Except.ok (mkDataUri f (ext.b64 (requestFont opts ext u f "binary" w).1),
          (requestFont opts ext u f "binary" w).2) := by
  simp [requestFontFile, hdp, hfmt]

theorem requestFont_fst_empty (opts : Opts) (ext : Ext)
    (u format encoding : String) (w : World) (hst : w.store = []) :
    (requestFont opts ext u format encoding w).1 = ext.net u := by
  cases hc : opts.cache with
  | false => rw [requestFont_nocache opts ext u format encoding w hc]
  | true =>
    rw [requestFont_miss opts ext u format encoding w hc (Or.inl (by rw [hst]; rfl))]

theorem requestFont_store_empty (opts : Opts) (ext : Ext)
    (u format encoding : String) (w : World) (hst : w.store = []) :
    (requestFont opts ext u format encoding w).2.store
      = [(getCacheKey ext.hash u format, ext.net u)] := by
  cases hc : opts.cache with
  | false =>
    rw [requestFont_nocache opts ext u format encoding w hc]
    simp [hst]
  | true =>
    rw [requestFont_miss opts ext u format encoding w hc (Or.inl (by rw [hst]; rfl))]
    simp [hst]

theorem requestFont_fst_single (opts : Opts) (ext : Ext)
    (u format encoding : String) (w : World)
    (hst : w.store = [(getCacheKey ext.hash u format, ext.net u)]) :
    (requestFont opts ext u format encoding w).1 = ext.net u := by
  cases hc : opts.cache with
  | false => rw [requestFont_nocache opts ext u format encoding w hc]
  | true =>
    have hv : storeGet w.store (getCacheKey ext.hash u format) = some (ext.net u) := by
      rw [hst]
      exact storeGet_cons_self [] _ _
    by_cases he : ext.net u = ""
    · rw [requestFont_miss opts ext u format encoding w hc (Or.inr (by rw [hv, he]))]
    · rw [requestFont_hit opts ext u format encoding (ext.net u) w hc hv he]

/-- C1 (amended): encodeFonts on a text with the same URL in two url(...)
references replaces each occurrence positionally: occurrence N of the
extracted list is replaced by data-URI N, each replacement landing on the
leftmost remaining occurrence.  Both occurrences receive the same inlined
value and none is replaced twice PROVIDED the synthesized data URI does not
itself contain the URL, carries no active JS substitution pattern (true of
the real collaborators: the format name and the base64 text never contain a
dollar) and the occurrences do not overlap the frame (the two firstSplit
hypotheses pin the leftmost occurrence seen by each replacement); without
the containment proviso a later replacement can land inside an earlier
inlined value, see the counterexample. -/
theorem encodeFonts_two_occurrences (opts : Opts) (ext : Ext) (u f : String) (w : World)
    (henc : opts.encode = true)
    (hst : w.store = [])
    (hne : u.data ≠ [])
    (hcl : ∀ c ∈ u.data, c ≠ ')' ∧ c ≠ '\n')
    (hdp : isDataAppUri u = false)
    (hfmt : inferFormat opts.formats u = some f)
    (hdol : hasSubstPattern (mkDataUri f (ext.b64 (ext.net u))).data = false)
    (h5 : firstSplit u.data (cssOf u).data
        = some (("a:url(" : String).data, ((");b:url(" ++ u ++ ");" : String)).data))
    (h6 : firstSplit u.data
          ("a:url(" ++ mkDataUri f (ext.b64 (ext.net u)) ++ ");b:url(" ++ u ++ ");").data
        = some (("a:url(" ++ mkDataUri f (ext.b64 (ext.net u)) ++ ");b:url(").data,
            ((");" : String)).data)) :
    ∃ w2, encodeFonts opts ext (cssOf u) w
      = Except.ok ("a:url(" ++ mkDataUri f (ext.b64 (ext.net u)) ++ ");b:url("
          ++ mkDataUri f (ext.b64 (ext.net u)) ++ ");", w2) := by
  have hmatch := strMatchUrls_cssOf u hne hcl
  have hD1 : (requestFont opts ext u f "binary" w).1 = ext.net u :=
    requestFont_fst_empty opts ext u f "binary" w hst
  have hS1 := requestFont_store_empty opts ext u f "binary" w hst
  have hD2 : (requestFont opts ext u f "binary"
      ((requestFont opts ext u f "binary" w).2)).1 = ext.net u :=
    requestFont_fst_single opts ext u f "binary" _ hS1
  have hrf1 := requestFontFile_fetch opts ext u f w hdp hfmt
  have hrf2 := requestFontFile_fetch opts ext u f
    ((requestFont opts ext u f "binary" w).2) hdp hfmt
  have r1 : jsReplaceFirst (cssOf u) u (mkDataUri f (ext.b64 (ext.net u)))
      = "a:url(" ++ mkDataUri f (ext.b64 (ext.net u)) ++ ");b:url(" ++ u ++ ");" := by
    simp only [jsReplaceFirst, h5]
    rw [jsSubstitute_id u.data (("a:url(" : String)).data
      (((");b:url(" ++ u ++ ");" : String)).data)
      ((mkDataUri f (ext.b64 (ext.net u))).data) hdol]
    apply strExt
    simp [strData_append, List.append_assoc]
  have r2 : jsReplaceFirst
        ("a:url(" ++ mkDataUri f (ext.b64 (ext.net u)) ++ ");b:url(" ++ u ++ ");")
        u (mkDataUri f (ext.b64 (ext.net u)))
      = "a:url(" ++ mkDataUri f (ext.b64 (ext.net u)) ++ ");b:url("
          ++ mkDataUri f (ext.b64 (ext.net u)) ++ ");" := by
    simp only [jsReplaceFirst, h6]
    rw [jsSubstitute_id u.data
      (("a:url(" ++ mkDataUri f (ext.b64 (ext.net u)) ++ ");b:url(").data)
      (((");" : String)).data)
      ((mkDataUri f (ext.b64 (ext.net u))).data) hdol]
    apply strExt
    simp [strData_append, List.append_assoc]
  refine ⟨(requestFont opts ext u f "binary"
      ((requestFont opts ext u f "binary" w).2)).2, ?_⟩
  simp only [encodeFonts, henc, if_pos, hmatch]
  simp only [requestFontFiles, hrf1, hrf2, hD1, hD2]
  simp [replaceLoop, r1, r2]

/- Witness for C1's amended statement with a well-behaved URL. -/
theorem encodeFonts_two_occurrences_witness :
    ∃ w2, encodeFonts defaultOpts ⟨fun s => s, fun _ => "FNT", fun _ => "RU5D"⟩
        (cssOf "f.woff2") ⟨[], 0, []⟩
      = Except.ok ("a:url(" ++ mkDataUri "woff2"
            ((fun (_ : String) => "RU5D") ((fun (_ : String) => "FNT") "f.woff2")) ++ ");b:url("
          ++ mkDataUri "woff2"
            ((fun (_ : String) => "RU5D") ((fun (_ : String) => "FNT") "f.woff2")) ++ ");", w2) :=
  encodeFonts_two_occurrences defaultOpts ⟨fun s => s, fun _ => "FNT", fun _ => "RU5D"⟩
    "f.woff2" "woff2" ⟨[], 0, []⟩
    rfl rfl (by decide) (by decide) (by decide) (by decide) (by decide) (by decide)
    (by decide)

/- C1 counterexample: the URL x-font-woff2 (which ends in the configured
   woff2 format) appears in both url(...) references, yet after encoding the
   output still contains the remote reference url(x-font-woff2): the second
   replacement landed inside the first inlined data URI, which contains the
   URL as a substring, so an occurrence is left remote. -/
theorem encodeFonts_leaves_occurrence_remote :
    strMatchUrls (cssOf "x-font-woff2") = ["x-font-woff2", "x-font-woff2"]
    ∧ (encodeFonts defaultOpts ⟨fun s => s, fun _ => "F", fun _ => "Zg"⟩
        (cssOf "x-font-woff2") ⟨[], 0, []⟩).toOption.map (fun p => p.1)
      = some ("a:url(\"data:application/\"data:application/x-font-woff2;base64,Zg\";base64,Zg\");b:"
          ++ "url(x-font-woff2)" ++ ";") := by
  constructor
  · decide
  · decide

end GFP
